import Mathlib

/-!
Verification of `webscraper.py` (PY1-Web-Scraper).

The Python program is shallowly embedded: the JSON cache dictionary
`{"scraped_urls": ..., "projects": ...}` becomes a structure whose
`scraped_urls` field is the (insertion-ordered) list of dict keys; the
selenium fetch-and-extract block (`driver.get` + `WebDriverWait` +
`find_elements` + per-item field reads) is abstracted as a function
`String → Except String (List Record)` supplied as a parameter (a page-level
exception is `.error`, matching the outer `except` of `scrape_page`;
candidates are the per-item records that parsed successfully, since the
inner per-item `except` merely skips an item).  The thread pool of `main`
is modelled at two levels.  `processPage`/`runLoop` sequentialize it:
each `as_completed` iteration observes the cache state left by the
previous one — the interleaving-free execution (e.g. a single worker),
adequate for properties insensitive to interleaving.  The interleavings
the pool really allows inside the candidate loop are modelled separately
by `workerStep`/`runSchedule`, which execute two in-flight workers'
merge loops as atomic micro-steps: the line-106 membership test and the
line-107-112 commit are distinct statements on the shared
`cache['scraped_urls']` dict, and another thread can run between them.
-/

namespace WebScraper

/-- A row appended to `cache['projects']` by `scrape_page`
(lines 107-111 of `webscraper.py`): project name, href URL, timestamp. -/
structure Record where
  name : String
  url : String
  timestamp : String
deriving Repr, DecidableEq

/-- The cache dictionary of `webscraper.py`: `scraped_urls` is the list of
keys of the `cache['scraped_urls']` dict (every stored value is `True`, so
only the keys matter; Python dicts preserve insertion order), and
`projects` is the `cache['projects']` list. -/
structure Cache where
  scraped_urls : List String
  projects : List Record
deriving Repr, DecidableEq

/-- The empty cache returned by `load_cache` when no cache file exists
(line 69): `{"scraped_urls": {}, "projects": []}`. -/
def load_cache_default : Cache := ⟨[], []⟩

/-- One iteration of the candidate loop of `scrape_page` (lines 100-112):
state is `(page_data, cache)`; a candidate whose URL is already a key of
`cache['scraped_urls']` is skipped, otherwise it is appended to
`page_data` and its URL inserted into `cache['scraped_urls']`. -/
def mergeStep (st : List Record × Cache) (r : Record) : List Record × Cache :=
  if r.url ∈ st.2.scraped_urls then st
  else (st.1 ++ [r],
        { st.2 with scraped_urls := st.2.scraped_urls ++ [r.url] })

/-- The whole candidate loop of `scrape_page` (lines 100-117) run on a
cache: returns the `page_data` list and the updated cache. -/
def mergeCandidates (cache : Cache) (cands : List Record) :
    List Record × Cache :=
  cands.foldl mergeStep ([], cache)

/-- Observable side effects of `scrape_page` other than the cache
mutation: the randomized delay (line 83), the identity selection
(lines 86-87, indexed by the current size of the seen set), driver
setup (line 89), the page fetch (line 93), and the driver teardown in
`finally` (line 123). -/
inductive Effect where
  | sleep
  | identity (idx : Nat)
  | setupDriver
  | fetchUrl (url : String)
  | quitDriver
deriving Repr, DecidableEq

/-- `scrape_page(url, cache)` (lines 76-123).  If `url` is already in
`cache['scraped_urls']` it returns `[]` at once (lines 79-80), with no
delay, identity selection or fetch.  Otherwise it sleeps, picks an
identity by the seen-set size, fetches and extracts; a page-level
exception yields `[]` with the cache untouched (lines 119-121), while a
successful extraction runs the candidate loop.  Returns
`(page_data, cache', effects)`. -/
def scrape_page (fetchExtract : String → Except String (List Record))
    (url : String) (cache : Cache) :
    List Record × Cache × List Effect :=
  if url ∈ cache.scraped_urls then ([], cache, [])
  else
    let effs := [Effect.sleep, Effect.identity cache.scraped_urls.length,
                 Effect.setupDriver, Effect.fetchUrl url, Effect.quitDriver]
    match fetchExtract url with
    | Except.error _ => ([], cache, effs)
    | Except.ok cands =>
        ((mergeCandidates cache cands).1, (mergeCandidates cache cands).2, effs)

/-- The seed URL of `main` (line 130). -/
def main_url : String := "https://github.com/collections/machine-learning"

/-- Pagination discovery of `main` (lines 131-142): the page list starts
with the seed; discovered pagination hrefs are appended after filtering
out those already in `cache['scraped_urls']` (line 138); a discovery
failure leaves just the seed (lines 139-140). -/
def discoverPages (cache : Cache) (discovered : Except String (List String)) :
    List String :=
  match discovered with
  | Except.error _ => [main_url]
  | Except.ok links =>
      main_url :: links.filter (fun l => l ∉ cache.scraped_urls)

/-- Running state of the result-consuming loop of `main` (lines 150-159):
the shared cache, the number of `save_cache` calls attempted so far, and
the number of exceptions caught and printed by the loop's
`except` clause (line 158-159). -/
structure RunState where
  cache : Cache
  saveAttempts : Nat
  caughtErrors : Nat
deriving Repr, DecidableEq

/-- One `as_completed` iteration of `main` (lines 150-159) under the
interleaving-free execution: the worker's whole `scrape_page` is
observed atomically against the cache left by the previous completion
(interleaved execution of in-flight merge loops is modelled separately
by `workerStep`/`runSchedule`).  If the worker returned a non-empty
list the loop extends `cache['projects']` and calls `save_cache`.
`saveFails k` says whether the `k`-th `save_cache` call raises; the
surrounding `try`/`except Exception` catches such an exception, prints
it, and the loop continues (the `projects` extension has already
happened at that point). -/
def processPage (fetchExtract : String → Except String (List Record))
    (saveFails : Nat → Bool) (st : RunState) (url : String) : RunState :=
  let res := scrape_page fetchExtract url st.cache
  let pd := res.1
  let cache' := res.2.1
  if pd.isEmpty then { st with cache := cache' }
  else
    let cache2 := { cache' with projects := cache'.projects ++ pd }
    { cache := cache2,
      saveAttempts := st.saveAttempts + 1,
      caughtErrors :=
        if saveFails st.saveAttempts then st.caughtErrors + 1
        else st.caughtErrors }

/-- The whole result-consuming loop of `main` over the page list, as a
fold of `processPage`: the interleaving-free (one-completion-at-a-time,
e.g. single-worker) execution of the ThreadPoolExecutor.  It erases
interleavings in which two workers race on the same new URL; those are
modelled by `workerStep`/`runSchedule` below. -/
def runLoop (fetchExtract : String → Except String (List Record))
    (saveFails : Nat → Bool) (pages : List String) (st : RunState) :
    RunState :=
  pages.foldl (processPage fetchExtract saveFails) st

/-- `pandas.DataFrame.drop_duplicates(subset=['URL'], keep='last')`
(line 167): keeps, in original row order, each row whose URL does not
occur in any later row. -/
def dropDupKeepLast (rows : List Record) : List Record :=
  rows.foldr
    (fun r acc => if acc.any (fun x => x.url == r.url) then acc else r :: acc)
    []

/-- The export step of `main` (lines 162-169): the DataFrame built from
`cache['projects']`; when the output CSV already exists its rows are
concatenated in front and deduplicated by URL keeping the last
occurrence. -/
def exportTable (existing : Option (List Record)) (projects : List Record) :
    List Record :=
  match existing with
  | none => projects
  | some ex => dropDupKeepLast (ex ++ projects)

/-- The "New projects added" count printed by `main` (line 174):
the number of stored projects whose URL is NOT in `cache['scraped_urls']`. -/
def newProjectsAdded (cache : Cache) : Nat :=
  (cache.projects.filter (fun p => p.url ∉ cache.scraped_urls)).length

/-- The whole of `main` (lines 125-175): load cache (parameter `init`),
discover pages, run the pool loop, export.  Returns the final run state
and the exported table. -/
def runMain (init : Cache) (discovered : Except String (List String))
    (fetchExtract : String → Except String (List Record))
    (saveFails : Nat → Bool) (existing : Option (List Record)) :
    RunState × List Record :=
  let pages := discoverPages init discovered
  let final := runLoop fetchExtract saveFails pages ⟨init, 0, 0⟩
  (final, exportTable existing final.cache.projects)

/-! ### File-level model of `save_cache`

`save_cache` (lines 71-74) is `open(CONFIG['cache_file'], 'w')` followed
by `json.dump(cache, f)`: opening with mode `'w'` truncates the file in
place, then the serialized snapshot is written.  File contents are
modelled as the list of chunks present in the file; a crash may stop
the operation sequence after any prefix. -/

/-- A primitive file operation performed by `save_cache`. -/
inductive FileOp where
  | truncate
  | write (chunk : String)
deriving Repr, DecidableEq

/-- Effect of one file operation on the file contents. -/
def applyOp (contents : List String) (op : FileOp) : List String :=
  match op with
  | FileOp.truncate => []
  | FileOp.write c => contents ++ [c]

/-- Run a sequence of file operations. -/
def runOps (contents : List String) (ops : List FileOp) : List String :=
  ops.foldl applyOp contents

/-- The operation sequence of `save_cache(cache)` (lines 73-74): open in
mode `'w'` (truncate), then write the serialized snapshot. -/
def save_cache_ops (snapshot : String) : List FileOp :=
  [FileOp.truncate, FileOp.write snapshot]

/-- Every file state observable during an operation sequence: the
contents after each prefix of the operations (a crash can strand the
file in any of them). -/
def observableStates (contents : List String) (ops : List FileOp) :
    List (List String) :=
  (List.range (ops.length + 1)).map (fun k => runOps contents (ops.take k))

/-- Modelled from the spec: "`persist(state)` — writes the full state
atomically (write-temp-then-rename or equivalent) so a reader never
observes a half-written snapshot".  An operation sequence persists
`snapshot` atomically over prior contents `old` when every observable
intermediate state is either the prior contents or the new snapshot. -/
def atomicPersist (old : List String) (snapshot : String)
    (ops : List FileOp) : Prop :=
  ∀ s ∈ observableStates old ops, s = old ∨ s = [snapshot]

instance (old : List String) (snapshot : String) (ops : List FileOp) :
    Decidable (atomicPersist old snapshot ops) := by
  unfold atomicPersist
  infer_instance

/-- The cache-state invariant maintained by the program (spec §3): every
stored project's URL is in the seen set, and stored project URLs are
pairwise distinct. -/
def CacheInv (c : Cache) : Prop :=
  (c.projects.map Record.url).Nodup ∧
    ∀ r ∈ c.projects, r.url ∈ c.scraped_urls

instance (c : Cache) : Decidable (CacheInv c) := by
  unfold CacheInv
  infer_instance

/-! ### Concrete fixtures used to exercise the model -/

/-- A sample extracted project row. -/
def rec1 : Record := ⟨"proj1", "u1", "t1"⟩

/-- A second sample extracted project row. -/
def rec2 : Record := ⟨"proj2", "u2", "t2"⟩

/-- A third sample extracted project row. -/
def rec3 : Record := ⟨"proj3", "u3", "t3"⟩

/-- A row distinct from `rec2` but carrying the same URL key. -/
def rec2b : Record := ⟨"proj2b", "u2", "t4"⟩

/-- A fetch-and-extract behaviour where only the seed page succeeds,
yielding one project. -/
def fetch1 : String → Except String (List Record) := fun u =>
  if u = main_url then Except.ok [rec1] else Except.error "fetch failed"

/-- A fetch-and-extract behaviour with a seed page and one pagination
page whose extractions overlap on the URL `u2`. -/
def fetch2 : String → Except String (List Record) := fun u =>
  if u = main_url then Except.ok [rec1, rec2]
  else if u = "p2" then Except.ok [rec2b, rec3]
  else Except.error "fetch failed"

/-- Every `save_cache` call succeeds. -/
def noFail : Nat → Bool := fun _ => false

/-- Every `save_cache` call raises an I/O error. -/
def allFail : Nat → Bool := fun _ => true

/-! ### Interleaved execution of in-flight merge loops

`scrape_page` runs in the pool's worker threads and its candidate loop
(lines 100-112) mutates the shared `cache['scraped_urls']` dict
directly.  The membership test (line 106) and the commit (lines
107-112) are separate statements, each atomic under the interpreter
lock, but another worker can run between them: the check-then-act is
not atomic.  The following micro-step semantics makes those
interleavings explicit for two in-flight workers. -/

/-- In-flight state of one worker executing the candidate loop of
`scrape_page` (lines 100-112): candidates not yet tested, a candidate
that has passed the line-106 membership test but whose lines 107-112
have not yet run, and the worker-local `page_data` list. -/
structure WorkerState where
  pending : List Record
  passed : Option Record
  page_data : List Record
deriving Repr, DecidableEq

/-- Setting a key in the seen dict (line 112): a Python dict assignment
is a no-op on the key list when the key is already present. -/
def insertSeen (seen : List String) (u : String) : List String :=
  if u ∈ seen then seen else seen ++ [u]

/-- One atomic micro-step of a worker: commit a candidate that already
passed the membership test (append to the local `page_data`, mark its
url seen — lines 107-112), or else run the line-106 membership test on
the next pending candidate. -/
def workerStep (seen : List String) (w : WorkerState) :
    List String × WorkerState :=
  match w.passed with
  | some r =>
      (insertSeen seen r.url,
       { w with passed := none, page_data := w.page_data ++ [r] })
  | none =>
      match w.pending with
      | [] => (seen, w)
      | r :: rest =>
          if r.url ∈ seen then (seen, { w with pending := rest })
          else (seen, { w with pending := rest, passed := some r })

/-- Run two in-flight workers under an explicit interleaving:
`false` steps the first worker, `true` steps the second. -/
def runSchedule (schedule : List Bool) (seen : List String)
    (w₁ w₂ : WorkerState) : List String × WorkerState × WorkerState :=
  match schedule with
  | [] => (seen, w₁, w₂)
  | b :: bs =>
      if b then
        let s₂ := workerStep seen w₂
        runSchedule bs s₂.1 w₁ s₂.2
      else
        let s₁ := workerStep seen w₁
        runSchedule bs s₁.1 s₁.2 w₂

/-- The concrete racy execution: two in-flight workers whose pages both
extracted a record with the new URL `u2` (as in the spec's own
scenario, where two pages overlap on one project), starting from a
fresh cache and interleaved as test₁, test₂, commit₁, commit₂. -/
def raceOutcome : List String × WorkerState × WorkerState :=
  runSchedule [false, true, false, true] load_cache_default.scraped_urls
    ⟨[rec2], none, []⟩ ⟨[rec2b], none, []⟩

/-! ### Lemmas about the candidate-merge loop -/

theorem merge_projects (cs : List Record) :
    ∀ pd c, (cs.foldl mergeStep (pd, c)).2.projects = c.projects := by
  induction cs with
  | nil => intro pd c; rfl
  | cons r cs ih =>
    intro pd c
    simp only [List.foldl_cons, mergeStep]
    by_cases h : r.url ∈ c.scraped_urls
    · simp only [if_pos h]
      exact ih pd c
    · simp only [if_neg h]
      exact ih _ _

theorem merge_mem_scraped (cs : List Record) :
    ∀ pd c u, u ∈ (cs.foldl mergeStep (pd, c)).2.scraped_urls ↔
      u ∈ c.scraped_urls ∨ u ∈ cs.map Record.url := by
  induction cs with
  | nil => intro pd c u; simp
  | cons r cs ih =>
    intro pd c u
    simp only [List.foldl_cons, mergeStep, List.map_cons, List.mem_cons]
    by_cases h : r.url ∈ c.scraped_urls
    · rw [if_pos h, ih]
      constructor
      · rintro (hu | hu)
        · exact Or.inl hu
        · exact Or.inr (Or.inr hu)
      · rintro (hu | hu | hu)
        · exact Or.inl hu
        · subst hu; exact Or.inl h
        · exact Or.inr hu
    · rw [if_neg h, ih]
      simp only [List.mem_append, List.mem_singleton]
      tauto

theorem merge_ext (cs : List Record) :
    ∀ pd c, ∃ ext : List Record,
      (cs.foldl mergeStep (pd, c)).1 = pd ++ ext ∧
      (cs.foldl mergeStep (pd, c)).2.scraped_urls =
        c.scraped_urls ++ ext.map Record.url ∧
      (∀ r ∈ ext, r ∈ cs ∧ r.url ∉ c.scraped_urls) ∧
      (ext.map Record.url).Nodup := by
  induction cs with
  | nil =>
    intro pd c
    exact ⟨[], by simp, by simp, by simp, by simp⟩
  | cons r cs ih =>
    intro pd c
    simp only [List.foldl_cons, mergeStep]
    by_cases h : r.url ∈ c.scraped_urls
    · rw [if_pos h]
      obtain ⟨ext, h1, h2, h3, h4⟩ := ih pd c
      exact ⟨ext, h1, h2,
        fun x hx => ⟨List.mem_cons_of_mem _ (h3 x hx).1, (h3 x hx).2⟩, h4⟩
    · rw [if_neg h]
      obtain ⟨ext, h1, h2, h3, h4⟩ :=
        ih (pd ++ [r]) {c with scraped_urls := c.scraped_urls ++ [r.url]}
      refine ⟨r :: ext, ?_, ?_, ?_, ?_⟩
      · simpa [List.append_assoc] using h1
      · simpa [List.append_assoc] using h2
      · intro x hx
        rcases List.mem_cons.mp hx with hx | hx
        · subst hx
          exact ⟨List.mem_cons_self _ _, h⟩
        · refine ⟨List.mem_cons_of_mem _ (h3 x hx).1, fun hmem => ?_⟩
          exact (h3 x hx).2 (List.mem_append_left _ hmem)
      · simp only [List.map_cons, List.nodup_cons]
        refine ⟨fun hmem => ?_, h4⟩
        rw [List.mem_map] at hmem
        obtain ⟨x, hx, hxu⟩ := hmem
        exact (h3 x hx).2 (by simp [hxu])

theorem mergeCandidates_fst (c : Cache) (cs : List Record) :
    ∃ ext : List Record,
      (mergeCandidates c cs).1 = ext ∧
      (mergeCandidates c cs).2.scraped_urls =
        c.scraped_urls ++ ext.map Record.url ∧
      (∀ r ∈ ext, r ∈ cs ∧ r.url ∉ c.scraped_urls) ∧
      (ext.map Record.url).Nodup := by
  obtain ⟨ext, h1, h2, h3, h4⟩ := merge_ext cs [] c
  exact ⟨ext, by simpa [mergeCandidates] using h1,
    by simpa [mergeCandidates] using h2, h3, h4⟩

theorem mergeCandidates_projects (c : Cache) (cs : List Record) :
    (mergeCandidates c cs).2.projects = c.projects :=
  merge_projects cs [] c

theorem mergeCandidates_mem_scraped (c : Cache) (cs : List Record) (u : String) :
    u ∈ (mergeCandidates c cs).2.scraped_urls ↔
      u ∈ c.scraped_urls ∨ u ∈ cs.map Record.url :=
  merge_mem_scraped cs [] c u

theorem merge_ext_first (cs : List Record) :
    ∀ pd c, ∃ ext : List Record,
      (cs.foldl mergeStep (pd, c)).1 = pd ++ ext ∧
      ∀ r ∈ ext, r.url ∉ c.scraped_urls ∧
        cs.find? (fun x => x.url == r.url) = some r := by
  induction cs with
  | nil =>
      intro pd c
      exact ⟨[], by simp, by simp⟩
  | cons y cs ih =>
      intro pd c
      simp only [List.foldl_cons, mergeStep]
      by_cases h : y.url ∈ c.scraped_urls
      · rw [if_pos h]
        obtain ⟨ext, h1, h2⟩ := ih pd c
        refine ⟨ext, h1, fun r hr => ⟨(h2 r hr).1, ?_⟩⟩
        have hne : (y.url == r.url) = false := by
          rw [beq_eq_false_iff_ne]
          intro he
          exact (h2 r hr).1 (he ▸ h)
        rw [List.find?_cons_of_neg, (h2 r hr).2]
        simp [hne]
      · rw [if_neg h]
        obtain ⟨ext, h1, h2⟩ :=
          ih (pd ++ [y]) {c with scraped_urls := c.scraped_urls ++ [y.url]}
        refine ⟨y :: ext, by simpa [List.append_assoc] using h1, ?_⟩
        intro r hr
        rcases List.mem_cons.mp hr with hr | hr
        · subst hr
          refine ⟨h, ?_⟩
          rw [List.find?_cons_of_pos]
          simp
        · have h2r := h2 r hr
          have hrne : r.url ≠ y.url := by
            intro he
            exact h2r.1 (by simp [he])
          refine ⟨fun hc => h2r.1 (List.mem_append_left _ hc), ?_⟩
          have hne : (y.url == r.url) = false := by
            rw [beq_eq_false_iff_ne]
            exact fun he => hrne he.symm
          rw [List.find?_cons_of_neg, h2r.2]
          simp [hne]

/-! ### Equation lemmas for `scrape_page` and `processPage` -/

theorem scrape_page_skip (f : String → Except String (List Record))
    (url : String) (c : Cache) (hm : url ∈ c.scraped_urls) :
    scrape_page f url c = ([], c, []) := by
  unfold scrape_page
  rw [if_pos hm]

theorem scrape_page_error (f : String → Except String (List Record))
    (url : String) (c : Cache) (e : String)
    (hm : url ∉ c.scraped_urls) (hf : f url = Except.error e) :
    scrape_page f url c = ([], c,
      [Effect.sleep, Effect.identity c.scraped_urls.length,
       Effect.setupDriver, Effect.fetchUrl url, Effect.quitDriver]) := by
  unfold scrape_page
  rw [if_neg hm, hf]

theorem scrape_page_ok (f : String → Except String (List Record))
    (url : String) (c : Cache) (cands : List Record)
    (hm : url ∉ c.scraped_urls) (hf : f url = Except.ok cands) :
    scrape_page f url c =
      ((mergeCandidates c cands).1, (mergeCandidates c cands).2,
       [Effect.sleep, Effect.identity c.scraped_urls.length,
        Effect.setupDriver, Effect.fetchUrl url, Effect.quitDriver]) := by
  unfold scrape_page
  rw [if_neg hm, hf]

theorem scrape_page_projects (f : String → Except String (List Record))
    (url : String) (c : Cache) :
    (scrape_page f url c).2.1.projects = c.projects := by
  by_cases hm : url ∈ c.scraped_urls
  · rw [scrape_page_skip f url c hm]
  · cases hf : f url with
    | error e => rw [scrape_page_error f url c e hm hf]
    | ok cands =>
        rw [scrape_page_ok f url c cands hm hf]
        exact mergeCandidates_projects c cands

theorem processPage_eq_skip (f : String → Except String (List Record))
    (s : Nat → Bool) (st : RunState) (url : String)
    (hm : url ∈ st.cache.scraped_urls) :
    processPage f s st url = st := by
  unfold processPage
  rw [scrape_page_skip f url st.cache hm]
  rfl

theorem processPage_eq_error (f : String → Except String (List Record))
    (s : Nat → Bool) (st : RunState) (url : String) (e : String)
    (hf : f url = Except.error e) :
    processPage f s st url = st := by
  by_cases hm : url ∈ st.cache.scraped_urls
  · exact processPage_eq_skip f s st url hm
  · unfold processPage
    rw [scrape_page_error f url st.cache e hm hf]
    rfl

theorem processPage_eq_ok (f : String → Except String (List Record))
    (s : Nat → Bool) (st : RunState) (url : String) (cands : List Record)
    (hm : url ∉ st.cache.scraped_urls) (hf : f url = Except.ok cands) :
    processPage f s st url =
      if (mergeCandidates st.cache cands).1.isEmpty then
        { st with cache := (mergeCandidates st.cache cands).2 }
      else
        { cache := { (mergeCandidates st.cache cands).2 with
                     projects := (mergeCandidates st.cache cands).2.projects ++
                       (mergeCandidates st.cache cands).1 },
          saveAttempts := st.saveAttempts + 1,
          caughtErrors :=
            if s st.saveAttempts then st.caughtErrors + 1
            else st.caughtErrors } := by
  unfold processPage
  rw [scrape_page_ok f url st.cache cands hm hf]

/-! ### Preservation of the cache invariant -/

theorem CacheInv_merge (c : Cache) (cs : List Record) (h : CacheInv c) :
    CacheInv (mergeCandidates c cs).2 := by
  obtain ⟨ext, hfst, hscr, hnew, hnd⟩ := mergeCandidates_fst c cs
  constructor
  · rw [mergeCandidates_projects]
    exact h.1
  · intro r hr
    rw [mergeCandidates_projects] at hr
    rw [hscr]
    exact List.mem_append_left _ (h.2 r hr)

theorem CacheInv_merge_extend (c : Cache) (cs : List Record) (h : CacheInv c) :
    CacheInv { (mergeCandidates c cs).2 with
               projects := (mergeCandidates c cs).2.projects ++
                 (mergeCandidates c cs).1 } := by
  obtain ⟨ext, hfst, hscr, hnew, hnd⟩ := mergeCandidates_fst c cs
  rw [hfst]
  constructor
  · simp only [mergeCandidates_projects, List.map_append]
    rw [List.nodup_append]
    refine ⟨h.1, hnd, ?_⟩
    intro u hu hu2
    rw [List.mem_map] at hu hu2
    obtain ⟨r, hr, rfl⟩ := hu
    obtain ⟨x, hx, hxu⟩ := hu2
    exact (hnew x hx).2 (hxu ▸ h.2 r hr)
  · intro r hr
    simp only [mergeCandidates_projects] at hr
    rw [hscr]
    rcases List.mem_append.mp hr with hr | hr
    · exact List.mem_append_left _ (h.2 r hr)
    · exact List.mem_append_right _ (List.mem_map_of_mem _ hr)

theorem processPage_inv (f : String → Except String (List Record))
    (s : Nat → Bool) (st : RunState) (url : String) (h : CacheInv st.cache) :
    CacheInv (processPage f s st url).cache := by
  by_cases hm : url ∈ st.cache.scraped_urls
  · rw [processPage_eq_skip f s st url hm]
    exact h
  · cases hf : f url with
    | error e =>
        rw [processPage_eq_error f s st url e hf]
        exact h
    | ok cands =>
        rw [processPage_eq_ok f s st url cands hm hf]
        by_cases hpd : (mergeCandidates st.cache cands).1.isEmpty
        · rw [if_pos hpd]
          exact CacheInv_merge st.cache cands h
        · rw [if_neg hpd]
          exact CacheInv_merge_extend st.cache cands h

theorem runLoop_inv (f : String → Except String (List Record))
    (s : Nat → Bool) (pages : List String) :
    ∀ st : RunState, CacheInv st.cache → CacheInv (runLoop f s pages st).cache := by
  induction pages with
  | nil => intro st h; exact h
  | cons p ps ih =>
      intro st h
      exact ih _ (processPage_inv f s st p h)

theorem runLoop_append (f : String → Except String (List Record))
    (s : Nat → Bool) (xs ys : List String) (st : RunState) :
    runLoop f s (xs ++ ys) st = runLoop f s ys (runLoop f s xs st) :=
  List.foldl_append _ _ _ _

theorem runLoop_scraped_source (f : String → Except String (List Record))
    (s : Nat → Bool) (pages : List String) :
    ∀ (st : RunState) (u : String),
      u ∈ (runLoop f s pages st).cache.scraped_urls →
      u ∈ st.cache.scraped_urls ∨
        ∃ p ∈ pages, ∃ cands, f p = Except.ok cands ∧ u ∈ cands.map Record.url := by
  induction pages with
  | nil => intro st u h; exact Or.inl h
  | cons p ps ih =>
      intro st u h
      rcases ih _ u h with h1 | ⟨q, hq, cands, hfq, hu⟩
      · by_cases hm : p ∈ st.cache.scraped_urls
        · rw [processPage_eq_skip f s st p hm] at h1
          exact Or.inl h1
        · cases hf : f p with
          | error e =>
              rw [processPage_eq_error f s st p e hf] at h1
              exact Or.inl h1
          | ok cands =>
              rw [processPage_eq_ok f s st p cands hm hf] at h1
              have h2 : u ∈ (mergeCandidates st.cache cands).2.scraped_urls := by
                by_cases hpd : (mergeCandidates st.cache cands).1.isEmpty
                · rw [if_pos hpd] at h1
                  exact h1
                · rw [if_neg hpd] at h1
                  exact h1
              rcases (mergeCandidates_mem_scraped st.cache cands u).mp h2 with h3 | h3
              · exact Or.inl h3
              · exact Or.inr ⟨p, List.mem_cons_self _ _, cands, hf, h3⟩
      · exact Or.inr ⟨q, List.mem_cons_of_mem _ hq, cands, hfq, hu⟩

/-! ### Export deduplication -/

theorem dropDupKeepLast_nodup (rows : List Record) :
    ((dropDupKeepLast rows).map Record.url).Nodup := by
  induction rows with
  | nil => simp [dropDupKeepLast]
  | cons r rs ih =>
      show ((if (dropDupKeepLast rs).any (fun x => x.url == r.url) then
              dropDupKeepLast rs
            else r :: dropDupKeepLast rs).map Record.url).Nodup
      by_cases h : (dropDupKeepLast rs).any (fun x => x.url == r.url)
      · rw [if_pos h]
        exact ih
      · rw [if_neg h]
        simp only [List.map_cons, List.nodup_cons]
        refine ⟨fun hmem => h ?_, ih⟩
        rw [List.mem_map] at hmem
        obtain ⟨x, hx, hxu⟩ := hmem
        exact List.any_eq_true.mpr ⟨x, hx, by simp [hxu]⟩

/-! ### Claim theorems -/

/-- C1 counterexample: the dedup claim fails under the concurrency the
pool allows — the check-then-act of lines 106-112 is not atomic, so two
workers whose pages both extracted the new URL `u2` can both pass the
line-106 membership test before either runs line 112 (schedule test₁,
test₂, commit₁, commit₂), both append a record for `u2`, `main` extends
`cache['projects']` with both, and a fresh run (no existing CSV, so
line 169 writes the DataFrame without `drop_duplicates`) exports the
url `u2` twice. -/
theorem concurrent_merge_duplicate_export :
    raceOutcome.2.1.page_data = [rec2] ∧
    raceOutcome.2.2.page_data = [rec2b] ∧
    ¬ ((exportTable none (load_cache_default.projects ++
          raceOutcome.2.1.page_data ++ raceOutcome.2.2.page_data)).map
        Record.url).Nodup := by
  decide

/-- C1 (amended): under the interleaving-free execution of the pool
(page completions consuming the shared cache one at a time, e.g. a
single worker), starting from a cache satisfying the program's own
invariant (distinct stored URLs, all marked seen — true of a fresh
cache and preserved by every run), every url appears at most once as a
row key in the final exported table, regardless of how many pages'
extraction results independently contain it and regardless of whether a
previously exported table already contained it; when an output CSV
already exists, the `drop_duplicates(subset=['URL'])` step enforces
this unconditionally.  Interleaved workers can instead race on the same
new url, as the counterexample exhibits. -/
theorem final_export_url_nodup (init : Cache)
    (discovered : Except String (List String))
    (f : String → Except String (List Record)) (s : Nat → Bool)
    (existing : Option (List Record)) (h : CacheInv init) :
    ((runMain init discovered f s existing).2.map Record.url).Nodup := by
  have hinv : CacheInv
      (runLoop f s (discoverPages init discovered) ⟨init, 0, 0⟩).cache :=
    runLoop_inv f s (discoverPages init discovered) ⟨init, 0, 0⟩ h
  show ((exportTable existing
      (runLoop f s (discoverPages init discovered) ⟨init, 0, 0⟩).cache.projects).map
        Record.url).Nodup
  cases existing with
  | none => exact hinv.1
  | some ex => exact dropDupKeepLast_nodup _

/-- Witness for C1 at a concrete run: fresh cache, one pagination page,
overlapping extractions, and a pre-existing export that already contains
the shared URL. -/
theorem final_export_url_nodup_witness :
    ((runMain load_cache_default (Except.ok ["p2"]) fetch2 noFail
        (some [rec2])).2.map Record.url).Nodup :=
  final_export_url_nodup load_cache_default (Except.ok ["p2"]) fetch2 noFail
    (some [rec2]) (by decide)

/-- C2 counterexample: it is not true that exactly the candidates whose
urls were absent before the merge are appended — with two candidates
sharing the new URL `u2`, the second one is also "absent before" yet is
not appended. -/
theorem merge_appends_counterexample :
    rec2b.url ∉ load_cache_default.scraped_urls ∧
    rec2b ∈ [rec2, rec2b] ∧
    rec2b ∉ (mergeCandidates load_cache_default [rec2, rec2b]).1 := by
  decide

/-- C2 (amended): after one page's merge step, a url is seen iff it was
seen before or is the url of one of the step's candidates; every
appended record is a candidate whose url was absent before and is
precisely the FIRST candidate of the step carrying its url (its
`List.find?` result), every candidate url absent before is represented,
a candidate that is not the first of the step carrying its url is never
appended (intra-batch duplicates collapse to the first occurrence), and
the appended urls are pairwise distinct. -/
theorem merge_seen_iff (c : Cache) (cs : List Record) :
    (∀ u, u ∈ (mergeCandidates c cs).2.scraped_urls ↔
        u ∈ c.scraped_urls ∨ u ∈ cs.map Record.url) ∧
    (∀ r ∈ (mergeCandidates c cs).1, r ∈ cs ∧ r.url ∉ c.scraped_urls ∧
        cs.find? (fun x => x.url == r.url) = some r) ∧
    (∀ x ∈ cs, x.url ∉ c.scraped_urls →
        ∃ r ∈ (mergeCandidates c cs).1, r.url = x.url) ∧
    (∀ x, cs.find? (fun y => y.url == x.url) ≠ some x →
        x ∉ (mergeCandidates c cs).1) ∧
    ((mergeCandidates c cs).1.map Record.url).Nodup := by
  obtain ⟨ext, hfst, hscr, hnew, hnd⟩ := mergeCandidates_fst c cs
  obtain ⟨ext2, hfst2, hfirst⟩ := merge_ext_first cs [] c
  have hext2 : (mergeCandidates c cs).1 = ext2 := by
    simpa [mergeCandidates] using hfst2
  have hmem2 : ∀ r ∈ (mergeCandidates c cs).1,
      r ∈ cs ∧ r.url ∉ c.scraped_urls := by
    intro r hr
    rw [hfst] at hr
    exact hnew r hr
  have hfirstpd : ∀ r ∈ (mergeCandidates c cs).1,
      cs.find? (fun x => x.url == r.url) = some r := by
    intro r hr
    rw [hext2] at hr
    exact (hfirst r hr).2
  refine ⟨fun u => mergeCandidates_mem_scraped c cs u,
    fun r hr => ⟨(hmem2 r hr).1, (hmem2 r hr).2, hfirstpd r hr⟩,
    ?_, fun x hx hmem => hx (hfirstpd x hmem), ?_⟩
  · intro x hx hxnew
    have hmem : x.url ∈ (mergeCandidates c cs).2.scraped_urls :=
      (mergeCandidates_mem_scraped c cs x.url).mpr
        (Or.inr (List.mem_map_of_mem _ hx))
    rw [hscr] at hmem
    rcases List.mem_append.mp hmem with hc | hc
    · exact absurd hc hxnew
    · rw [List.mem_map] at hc
      obtain ⟨r, hr, hru⟩ := hc
      exact ⟨r, by rw [hfst]; exact hr, hru⟩
  · rw [hfst]
    exact hnd

/-- Witness for C2 (amended): merging the overlapping batch into a
fresh cache marks `u2` seen, and the later duplicate `rec2b` — not the
first candidate carrying `u2` — is not appended. -/
theorem merge_seen_iff_witness :
    "u2" ∈ (mergeCandidates load_cache_default [rec2, rec2b]).2.scraped_urls ∧
    rec2b ∉ (mergeCandidates load_cache_default [rec2, rec2b]).1 :=
  ⟨((merge_seen_iff load_cache_default [rec2, rec2b]).1 "u2").mpr
      (Or.inr (by decide)),
    (merge_seen_iff load_cache_default [rec2, rec2b]).2.2.2.1 rec2b
      (by decide)⟩

/-- C3 counterexample: the worker does NOT leave the shared cache
unchanged — `scrape_page` on the seed page of a fresh cache inserts the
extracted URL into `cache['scraped_urls']` itself (line 112). -/
theorem scrape_page_mutates_cache :
    (scrape_page fetch1 main_url load_cache_default).2.1 ≠
      load_cache_default := by
  decide

/-- C3 (amended): the worker mutates only the seen set
(`cache['scraped_urls']`); it never touches the records list
(`cache['projects']`), whose sole mutator is the result-consuming loop
of `main`. -/
theorem scrape_page_preserves_projects
    (f : String → Except String (List Record)) (url : String) (c : Cache) :
    (scrape_page f url c).2.1.projects = c.projects :=
  scrape_page_projects f url c

/-- C10: for every url already present in the seen set,
`scrape_page(url, cache)` returns the empty list and leaves the cache
unchanged, performing no delay, identity selection, driver setup or
fetch (its effect trace is empty). -/
theorem scrape_page_seen_noop (f : String → Except String (List Record))
    (url : String) (c : Cache) (h : url ∈ c.scraped_urls) :
    scrape_page f url c = ([], c, []) :=
  scrape_page_skip f url c h

/-- Witness for C10: the already-seen url `u1` is skipped outright. -/
theorem scrape_page_seen_noop_witness :
    scrape_page fetch1 "u1" ⟨["u1"], []⟩ = ([], ⟨["u1"], []⟩, []) :=
  scrape_page_seen_noop fetch1 "u1" ⟨["u1"], []⟩ (by decide)

/-- C4 counterexample: `save_cache` does not persist atomically — with a
prior snapshot on disk, the state after the in-place truncation (mode
`'w'` open) is neither the old nor the new snapshot, so a reader at that
moment observes a half-written (empty) file. -/
theorem save_cache_not_atomic :
    ¬ atomicPersist ["old snapshot"] "new snapshot"
        (save_cache_ops "new snapshot") := by
  decide

/-- C4 (amended): `save_cache` writes the full snapshot, but in place
rather than via write-temp-then-rename: when the operation sequence
completes the file holds exactly the new snapshot, yet the truncated
empty file is observable partway, so a crash mid-write can corrupt the
prior persisted state. -/
theorem save_cache_writes_full_snapshot_nonatomically
    (old : List String) (snapshot : String) :
    runOps old (save_cache_ops snapshot) = [snapshot] ∧
    [] ∈ observableStates old (save_cache_ops snapshot) := by
  constructor
  · rfl
  · refine List.mem_map.mpr ⟨1, ?_, rfl⟩
    simp [save_cache_ops]

/-- C5: contrary to the claim, an I/O error raised by `save_cache`
inside the result-consuming loop does NOT halt the run: `save_cache`
sits inside the loop's `try`/`except Exception` (lines 152-159), so the
error is caught and printed, and the run still processes the remaining
page results and writes the export.  Here every save raises, two errors
are caught, and both pages' records still reach the cache and the
export. -/
theorem persist_failure_does_not_halt :
    (runMain load_cache_default (Except.ok ["p2"]) fetch2 allFail
        none).1.caughtErrors = 2 ∧
    (runMain load_cache_default (Except.ok ["p2"]) fetch2 allFail
        none).1.cache.projects = [rec1, rec2, rec3] ∧
    (runMain load_cache_default (Except.ok ["p2"]) fetch2 allFail
        none).2 = [rec1, rec2, rec3] := by
  decide

/-- C6: a page unit whose fetch or extraction raises contributes zero
records and does not abort the run — the whole loop state (hence the
final cache) and the exported table are exactly those of the run with
the failing page removed, so the other pages' records all still
appear. -/
theorem failing_page_no_effect (f : String → Except String (List Record))
    (s : Nat → Bool) (p₁ p₂ : List String) (pf e : String)
    (st : RunState) (existing : Option (List Record))
    (hf : f pf = Except.error e) :
    runLoop f s (p₁ ++ pf :: p₂) st = runLoop f s (p₁ ++ p₂) st ∧
    exportTable existing (runLoop f s (p₁ ++ pf :: p₂) st).cache.projects =
      exportTable existing (runLoop f s (p₁ ++ p₂) st).cache.projects := by
  have h1 : runLoop f s (p₁ ++ pf :: p₂) st = runLoop f s (p₁ ++ p₂) st := by
    rw [show p₁ ++ pf :: p₂ = (p₁ ++ [pf]) ++ p₂ by simp]
    rw [runLoop_append, runLoop_append]
    have h2 : runLoop f s [pf] (runLoop f s p₁ st) = runLoop f s p₁ st :=
      processPage_eq_error f s (runLoop f s p₁ st) pf e hf
    rw [h2, runLoop_append f s p₁ p₂ st]
  exact ⟨h1, by rw [h1]⟩

/-- Witness for C6: dropping the failing page `bad` from a concrete run
changes nothing. -/
theorem failing_page_no_effect_witness :
    runLoop fetch2 noFail ([main_url] ++ "bad" :: ["p2"])
        ⟨load_cache_default, 0, 0⟩ =
      runLoop fetch2 noFail ([main_url] ++ ["p2"])
        ⟨load_cache_default, 0, 0⟩ :=
  (failing_page_no_effect fetch2 noFail [main_url] ["p2"] "bad"
    "fetch failed" ⟨load_cache_default, 0, 0⟩ none rfl).1

/-- C7: merging candidate lists [A,B] and then [B,C] yields the same
seen set as merging [A,B,C] in one step, and re-merging a record whose
url is already seen changes neither the seen set nor the appended
records (the merge is idempotent). -/
theorem merge_assoc_idem (c : Cache) (A B C r : Record) :
    (∀ u, u ∈ (mergeCandidates
        (mergeCandidates c [A, B]).2 [B, C]).2.scraped_urls ↔
      u ∈ (mergeCandidates c [A, B, C]).2.scraped_urls) ∧
    (r.url ∈ c.scraped_urls → mergeCandidates c [r] = ([], c)) := by
  constructor
  · intro u
    rw [mergeCandidates_mem_scraped, mergeCandidates_mem_scraped,
      mergeCandidates_mem_scraped]
    simp only [List.map_cons, List.map_nil, List.mem_cons,
      List.not_mem_nil]
    tauto
  · intro h
    unfold mergeCandidates
    simp [mergeStep, h]

/-- Witness for C7: re-merging a record whose url is already seen is a
no-op on a concrete cache. -/
theorem merge_assoc_idem_witness :
    mergeCandidates ⟨["u1"], []⟩ [rec1] = ([], ⟨["u1"], []⟩) :=
  (merge_assoc_idem ⟨["u1"], []⟩ rec1 rec1 rec1 rec1).2 (by decide)

/-- C8: the "New projects added" figure printed by `main` (line 174)
counts the stored projects whose URL is NOT in `cache['scraped_urls']`,
which the merge invariant makes empty: on a fresh run that inserts one
record, the run really inserted 1 record but the printed count is 0. -/
theorem new_projects_added_always_zero :
    (runMain load_cache_default (Except.error "no pagination") fetch1
        noFail none).1.cache.projects.length = 1 ∧
    newProjectsAdded (runMain load_cache_default
        (Except.error "no pagination") fetch1 noFail none).1.cache = 0 := by
  decide

/-- C9: no operation inserts a page's own URL into the seen set — every
url in the seen set after the loop was either seen initially or is the
url of an extracted record; consequently a page url that never occurs
among extracted record urls (and was not initially seen) is still
unseen afterwards, so a rerun of `scrape_page` on it does not take the
skip branch and performs its delay/identity/fetch effects. -/
theorem seen_only_record_urls (f : String → Except String (List Record))
    (s : Nat → Bool) (pages : List String) (st : RunState) (q : String)
    (hq1 : q ∉ st.cache.scraped_urls)
    (hq2 : ∀ p ∈ pages, ∀ cands, f p = Except.ok cands →
      q ∉ cands.map Record.url) :
    (∀ u, u ∈ (runLoop f s pages st).cache.scraped_urls →
        u ∈ st.cache.scraped_urls ∨
          ∃ p ∈ pages, ∃ cands, f p = Except.ok cands ∧
            u ∈ cands.map Record.url) ∧
    q ∉ (runLoop f s pages st).cache.scraped_urls ∧
    (scrape_page f q (runLoop f s pages st).cache).2.2 ≠ [] := by
  have hsource := runLoop_scraped_source f s pages st
  have hq : q ∉ (runLoop f s pages st).cache.scraped_urls := by
    intro hmem
    rcases hsource q hmem with h | ⟨p, hp, cands, hfp, hu⟩
    · exact hq1 h
    · exact hq2 p hp cands hfp hu
  refine ⟨hsource, hq, ?_⟩
  cases hfq : f q with
  | error e =>
      rw [scrape_page_error f q _ e hq hfq]
      simp
  | ok cands =>
      rw [scrape_page_ok f q _ cands hq hfq]
      simp

/-- Witness for C9: after scraping the seed page, the pagination page
url `p2` is still unseen and would be re-fetched. -/
theorem seen_only_record_urls_witness :
    "p2" ∉ (runLoop fetch2 noFail [main_url]
        ⟨load_cache_default, 0, 0⟩).cache.scraped_urls :=
  (seen_only_record_urls fetch2 noFail [main_url]
    ⟨load_cache_default, 0, 0⟩ "p2" (by decide)
    (by
      intro p hp cands hc
      have hp' : p = main_url := List.mem_singleton.mp hp
      subst hp'
      have h2 : fetch2 main_url = Except.ok [rec1, rec2] := rfl
      rw [h2] at hc
      injection hc with h3
      subst h3
      decide)).2.1

end WebScraper
